import Mathlib

/-!
Verification development for the financial analysis core of the
`ai-finance-agent` repository.

The repository ships a Next.js frontend (`src/frontend`) whose TypeScript
types (`src/frontend/src/types/index.ts`) declare the shape of the analysis
artifact, and whose components (`Dashboard`, `FinancialCharts`) consume it.
The backend engines (layout detection, normalization, item resolution,
ratio / trend / anomaly / comparison engines, orchestrator) are described by
the specification but their source is not part of the frontend tree; they
are modelled here from the spec, with the artifact's shape constrained by
the frontend type declarations.  Real numbers of the program are embedded
as rationals (exact arithmetic).
-/

namespace AiFinance

/-- A raw table cell: a string, a number, or empty.  Mirrors the spec's
raw-table interface ("cell value (string/number/empty)"). -/
inductive Cell where
  | str (s : String)
  | num (q : ℚ)
  | empty
deriving DecidableEq

/-- Normalized fact, from the spec's data model and the backend records the
frontend consumes: `{period, category, line_item, amount}`. -/
structure CanonicalRecord where
  period : String
  category : String
  line_item : String
  amount : ℚ
deriving DecidableEq

/-- Lower-case an ASCII letter, used for case-insensitive matching. -/
def lcChar (c : Char) : Char :=
  if 65 ≤ c.toNat ∧ c.toNat ≤ 90 then Char.ofNat (c.toNat + 32) else c

/-- Lower-case a character list. -/
def lcList (s : List Char) : List Char := s.map lcChar

/-- Space test for trimming. -/
def isSpaceC (c : Char) : Bool := c = ' '

/-- Trim spaces from both ends of a character list. -/
def trimC (s : List Char) : List Char :=
  ((s.dropWhile isSpaceC).reverse.dropWhile isSpaceC).reverse

/-- Normalized key of a raw label: lower-cased and trimmed. -/
def labelKey (s : String) : List Char := trimC (lcList s.toList)

/-- Digit value of a character, `none` when not a decimal digit. -/
def digitVal (c : Char) : Option ℕ :=
  if 48 ≤ c.toNat ∧ c.toNat ≤ 57 then some (c.toNat - 48) else none

/-- Parse a non-empty all-digit character list into a natural number. -/
def parseDigits : List Char → Option ℕ
  | [] => none
  | [c] => digitVal c
  | c :: rest => do
      let d ← digitVal c
      let r ← parseDigits rest
      pure (d * 10 ^ rest.length + r)

/-- Parse an unsigned decimal numeral, with an optional fractional part
separated by a single dot. -/
def parseUnsigned (cs : List Char) : Option ℚ :=
  let ip := cs.takeWhile (fun c => c ≠ '.')
  match cs.dropWhile (fun c => c ≠ '.') with
  | [] => (parseDigits ip).map (fun n => (n : ℚ))
  | '.' :: frac => do
      let i ← parseDigits ip
      let f ← parseDigits frac
      pure ((i : ℚ) + (f : ℚ) / (10 : ℚ) ^ frac.length)
  | _ => none

/-- Parse a signed decimal numeral. -/
def parseNumber (cs : List Char) : Option ℚ :=
  match cs with
  | '-' :: rest => (parseUnsigned rest).map (fun q => -q)
  | _ => parseUnsigned cs

/-- Strip currency symbols, thousands separators and spaces, per the spec's
coercion rules. -/
def stripMoney (s : List Char) : List Char :=
  s.filter (fun c => c ≠ '$' && c ≠ ',' && c ≠ ' ')

/-- Modelled from the spec: amount-cell coercion of the Normalizer (the
backend normalizer source is not in the frontend tree).  Numeric cells pass
through; string cells are stripped of currency symbols / separators, with
the parenthesis-as-negative convention `(123) → -123`; empty or unparsable
cells coerce to nothing — an amount is never invented. -/
def coerceCell : Cell → Option ℚ
  | Cell.num q => some q
  | Cell.empty => none
  | Cell.str s =>
      match stripMoney s.toList with
      | '(' :: rest =>
          if rest.getLast? = some ')' then
            (parseNumber (rest.dropLast)).map (fun q => -q)
          else none
      | cs => parseNumber cs

/-! ### Layout detection (spec §4.1) -/

/-- A raw parsed table: an ordered sequence of named columns with rows, the
cells of a row aligned positionally with the column names. -/
structure RawTable where
  columns : List String
  rows : List (List Cell)
deriving DecidableEq

/-- Detected layout. -/
inductive Layout where
  | long
  | wide
deriving DecidableEq

/-- Accepted names for a required long-format concept, per the spec's alias
examples (`value` ≈ `amount`, `label` ≈ `line_item`). -/
def aliasesOf (c : String) : List String :=
  if c = "amount" then ["amount", "value"]
  else if c = "line_item" then ["line_item", "label"]
  else [c]

/-- Case-insensitive column-name match against a required concept,
aliases accepted. -/
def matchName (c : String) (name : String) : Bool :=
  (aliasesOf c).any (fun a => labelKey name = a.toList)

/-- The required long-format column set. -/
def requiredConcepts : List String := ["period", "category", "line_item", "amount"]

/-- Cells of column `j`, padding short rows with empty cells. -/
def colCells (t : RawTable) (j : ℕ) : List Cell :=
  t.rows.map (fun r => r.getD j Cell.empty)

/-- A cell holding a string. -/
def isStrCell : Cell → Bool
  | Cell.str _ => true
  | _ => false

/-- A cell holding a number. -/
def isNumCell : Cell → Bool
  | Cell.num _ => true
  | _ => false

/-- An empty cell. -/
def isEmptyCell : Cell → Bool
  | Cell.empty => true
  | _ => false

/-- A textual column: some cell is a string (the spec's "textual" column,
treated as the item label). -/
def isTextualCol (cs : List Cell) : Bool := cs.any isStrCell

/-- A numeric period column: at least one numeric cell, and every cell is
numeric or empty. -/
def isNumericCol (cs : List Cell) : Bool :=
  cs.any isNumCell && cs.all (fun c => isNumCell c || isEmptyCell c)

/-- Index of the first textual column, if any: the wide-format label column. -/
def labelColIdx (t : RawTable) : Option ℕ :=
  (List.range t.columns.length).find? (fun j => isTextualCol (colCells t j))

/-- Number of numeric period columns other than column `i`. -/
def numericColCountExcept (t : RawTable) (i : ℕ) : ℕ :=
  (List.range t.columns.length).countP
    (fun j => j ≠ i && isNumericCol (colCells t j))

/-- Number of numeric period columns of the table. -/
def numericColCount (t : RawTable) : ℕ :=
  (List.range t.columns.length).countP (fun j => isNumericCol (colCells t j))

/-- The long-format condition: every required concept is matched by some
column name. -/
def longCond (t : RawTable) : Bool :=
  requiredConcepts.all (fun c => t.columns.any (fun n => matchName c n))

/-- The wide-format condition: a textual label column exists and at least
two of the remaining columns are numeric period columns. -/
def wideCond (t : RawTable) : Bool :=
  match labelColIdx t with
  | some i => 2 ≤ numericColCountExcept t i
  | none => false

/-- Modelled from the spec: the Layout Detector (backend source not in the
frontend tree).  Long when the required column set is matched
case-insensitively (aliases accepted); else Wide when a textual column plus
two or more numeric period columns exist; else fails with
`UnrecognizedLayout`, surfaced to the caller. -/
def detectLayout (t : RawTable) : Except String Layout :=
  if longCond t then Except.ok Layout.long
  else if wideCond t then Except.ok Layout.wide
  else Except.error "UnrecognizedLayout"

/-! ### Normalization (spec §4.2) -/

/-- Text of a cell, for the period / category / label columns. -/
def cellText : Cell → String
  | Cell.str s => s
  | Cell.num q => toString q
  | Cell.empty => ""

/-- Index of the first column matching a required concept. -/
def colIdx (t : RawTable) (c : String) : Option ℕ :=
  (List.range t.columns.length).find?
    (fun j => matchName c (t.columns.getD j ""))

/-- The long-path row translation: one record exactly when the amount cell
coerces, taking the period / category / label texts from the resolved
columns. -/
def rowRecordLong (ip ic il ia : ℕ) (row : List Cell) : Option CanonicalRecord :=
  (coerceCell (row.getD ia Cell.empty)).map
    (fun a => ⟨cellText (row.getD ip Cell.empty), cellText (row.getD ic Cell.empty),
      cellText (row.getD il Cell.empty), a⟩)

/-- Modelled from the spec: the long-path Normalizer (backend source not in
the frontend tree).  Each row maps to one CanonicalRecord when its amount
cell coerces; otherwise the row is skipped with a recorded parse warning. -/
def normalizeLong (t : RawTable) : List CanonicalRecord × List String :=
  match colIdx t "period", colIdx t "category", colIdx t "line_item", colIdx t "amount" with
  | some ip, some ic, some il, some ia =>
      (t.rows.filterMap (rowRecordLong ip ic il ia),
       t.rows.filterMap
         (fun row =>
           if (coerceCell (row.getD ia Cell.empty)).isSome then none
           else some "CellParseWarning: row skipped"))
  | _, _, _, _ => ([], [])

/-- The wide-format period columns: every column other than the label
column, paired with its index. -/
def periodColsOf (t : RawTable) (li : ℕ) : List (ℕ × String) :=
  (List.range t.columns.length).filterMap
    (fun j => if j ≠ li then some (j, t.columns.getD j "") else none)

/-- A wide-format section-header row: a non-empty label whose period cells
are all empty.  Such a row sets the current category. -/
def isHeaderRow (li : ℕ) (pcols : List (ℕ × String)) (row : List Cell) : Bool :=
  cellText (row.getD li Cell.empty) ≠ "" &&
    pcols.all (fun pc => isEmptyCell (row.getD pc.1 Cell.empty))

/-- Records produced by one wide-format item row: one per coercible cell. -/
def wideRowRecords (li : ℕ) (pcols : List (ℕ × String)) (cat : String)
    (row : List Cell) : List CanonicalRecord :=
  pcols.filterMap
    (fun pc => (coerceCell (row.getD pc.1 Cell.empty)).map
      (fun a => ⟨pc.2, cat, cellText (row.getD li Cell.empty), a⟩))

/-- One fold step of the wide-path Normalizer: header rows update the
running category, item rows append one record per coercible cell. -/
def wideStep (li : ℕ) (pcols : List (ℕ × String))
    (acc : String × List CanonicalRecord) (row : List Cell) :
    String × List CanonicalRecord :=
  if isHeaderRow li pcols row then (cellText (row.getD li Cell.empty), acc.2)
  else (acc.1, acc.2 ++ wideRowRecords li pcols acc.1 row)

/-- Modelled from the spec: the wide-path Normalizer (backend source not in
the frontend tree).  The label column becomes `line_item`, each remaining
column a `period`; category is inferred from contiguous section-header
rows, defaulting to "Uncategorized"; one record per coercible cell. -/
def normalizeWide (t : RawTable) : List CanonicalRecord :=
  match labelColIdx t with
  | some li =>
      (t.rows.foldl (wideStep li (periodColsOf t li)) ("Uncategorized", [])).2
  | none => []

/-- Modelled from the spec: `detect_and_normalize` — layout detection then
normalization, the detection failure surfaced with no partial output. -/
def detect_and_normalize (t : RawTable) :
    Except String (Layout × List CanonicalRecord × List String) :=
  match detectLayout t with
  | Except.error e => Except.error e
  | Except.ok Layout.long =>
      Except.ok (Layout.long, (normalizeLong t).1, (normalizeLong t).2)
  | Except.ok Layout.wide => Except.ok (Layout.wide, normalizeWide t, [])

/-! ### Item resolution (spec §4.3) and record access -/

/-- First-seen deduplication, preserving first-appearance order — the
spec's canonical period ordering and the order of distinct labels. -/
def seenFold {α : Type} [DecidableEq α] (l : List α) : List α :=
  l.foldl (fun acc a => if a ∈ acc then acc else acc ++ [a]) []

/-- Periods of a dataset in canonical (first-appearance) order. -/
def periodsOf (records : List CanonicalRecord) : List String :=
  seenFold (records.map (fun r => r.period))

/-- Distinct raw line-item labels, in first-appearance order. -/
def lineItemsOf (records : List CanonicalRecord) : List String :=
  seenFold (records.map (fun r => r.line_item))

/-- Distinct `(category, line_item)` pairs, in first-appearance order. -/
def seriesKeysOf (records : List CanonicalRecord) : List (String × String) :=
  seenFold (records.map (fun r => (r.category, r.line_item)))

/-- Does `needle` occur as a contiguous sublist of `hay`? -/
def strContains (hay needle : List Char) : Bool :=
  match hay with
  | [] => needle = []
  | _ :: rest => needle.isPrefixOf hay || strContains rest needle

/-- Tokens of a normalized label: maximal space-free chunks. -/
def tokensOf (key : List Char) : List (List Char) :=
  (key.splitOn ' ').filter (fun w => w ≠ [])

/-- Token-overlap count: concept tokens that occur among the label tokens. -/
def tokenOverlap (ckey lkey : List Char) : ℕ :=
  ((tokensOf ckey).filter (fun w => w ∈ tokensOf lkey)).length

/-- Token-overlap similarity clears the fixed threshold: at least half of
the concept's tokens occur in the label. -/
def simOK (ckey lkey : List Char) : Bool :=
  (tokensOf ckey).length ≠ 0 &&
    (tokensOf ckey).length ≤ 2 * tokenOverlap ckey lkey

/-- Modelled from the spec: the Item Resolver's match quality for one
candidate label — 3 exact case-insensitive, 2 substring containment in
either direction, 1 token-overlap similarity above the threshold, 0 none. -/
def tierOf (concept : String) (label : String) : ℕ :=
  let ckey := concept.toList
  let lkey := labelKey label
  if lkey = ckey then 3
  else if strContains lkey ckey || strContains ckey lkey then 2
  else if simOK ckey lkey then 1
  else 0

/-- Is candidate `b` strictly better than `a` for `concept`?  Higher tier
wins; ties break to the shortest raw label; remaining ties keep the
earlier candidate. -/
def betterCand (concept : String) (a b : String) : Bool :=
  tierOf concept a < tierOf concept b ||
    (tierOf concept a = tierOf concept b && b.length < a.length)

/-- Modelled from the spec: the Item Resolver (backend source not in the
frontend tree).  Best-scoring distinct label for a canonical concept, or
`none` when no candidate clears the threshold. -/
def resolveConcept (concept : String) (labels : List String) : Option String :=
  labels.foldl
    (fun best l =>
      if tierOf concept l = 0 then best
      else match best with
        | none => some l
        | some b => if betterCand concept b l then some l else some b)
    none

/-- Amount recorded for `(period, line_item)`, first match wins. -/
def getAmount (records : List CanonicalRecord) (p li : String) : Option ℚ :=
  (records.find? (fun r => r.period = p && r.line_item = li)).map
    (fun r => r.amount)

/-- Resolved amount of a canonical concept at a period: resolve the concept
over the dataset's distinct labels, then look the label up at the period. -/
def getConcept (records : List CanonicalRecord) (concept : String)
    (p : String) : Option ℚ :=
  (resolveConcept concept (lineItemsOf records)).bind
    (fun li => getAmount records p li)

/-! ### Ratio Engine (spec §4.4), artifact shape from the frontend types -/

/-- A `number | string` value of the frontend's
`ratios: Record<string, number | string>` field. -/
inductive RVal where
  | num (q : ℚ)
  | str (s : String)
deriving DecidableEq

/-- One ratio entry: omitted when the formula's inputs do not resolve,
marked "insufficient data" when the denominator is zero, and the quotient
otherwise.  `inputs` carries `(numerator, denominator)`. -/
def ratioEntry (name : String) (inputs : Option (ℚ × ℚ)) :
    List (String × RVal) :=
  match inputs with
  | none => []
  | some (n, d) =>
      [(name, if d = 0 then RVal.str "insufficient data" else RVal.num (n / d))]

/-- Paired resolved inputs. -/
def pair2 (a b : Option ℚ) (f : ℚ → ℚ → ℚ × ℚ) : Option (ℚ × ℚ) :=
  match a, b with
  | some x, some y => some (f x y)
  | _, _ => none

/-- Modelled from the spec: the Ratio Engine (backend source not in the
frontend tree).  The output shape follows the frontend artifact type
`Record<string, number | string>` consumed by `Dashboard` and
`FinancialCharts` (both filter out a literal "period" key): a single flat
record for the most recent period, holding a "period" entry and one entry
per ratio whose inputs resolve. -/
def ratiosFor (records : List CanonicalRecord) : List (String × RVal) :=
  match (periodsOf records).getLast? with
  | none => []
  | some p =>
      let g := fun c => getConcept records c p
      ("period", RVal.str p)
        :: ratioEntry "gross_margin"
            (pair2 (g "revenue") (g "cogs") (fun r c => (r - c, r)))
        ++ ratioEntry "net_margin"
            (pair2 (g "net income") (g "revenue") (fun n r => (n, r)))
        ++ ratioEntry "return_on_assets"
            (pair2 (g "net income") (g "total assets") (fun n a => (n, a)))
        ++ ratioEntry "current_ratio"
            (pair2 (g "current assets") (g "current liabilities") (fun a l => (a, l)))
        ++ ratioEntry "debt_to_equity"
            (pair2 (g "total liabilities") (g "total assets") (fun l a => (l, a - l)))

/-! ### Trend Engine (spec §4.5), output shape from the frontend `Trend` type -/

/-- Trend direction, from the frontend union
`"increasing" | "decreasing" | "stable"`. -/
inductive Direction where
  | increasing
  | decreasing
  | stable
deriving DecidableEq

/-- One element of the frontend's
`period_changes: { from: string; to: string; change_pct: number | null }[]`
(`from`/`to` rendered as `fromP`/`toP`, `from` being reserved).  An
undefined change is an explicit entry with `change_pct = none`, matching
the type's `number | null`. -/
structure PChange where
  fromP : String
  toP : String
  change_pct : Option ℚ
deriving DecidableEq

/-- The frontend `Trend` artifact, values embedded as rationals. -/
structure Trend where
  line_item : String
  category : String
  values_by_period : List (String × ℚ)
  period_changes : List PChange
  avg_change_pct : ℚ
  direction : Direction
deriving DecidableEq

/-- Period-over-period percent change: `100 * (curr − prev) / |prev|`
(percent scale: the frontend renders `avg_change_pct` with a literal `%`),
undefined when `prev = 0`. -/
def changePct (prev curr : ℚ) : Option ℚ :=
  if prev = 0 then none else some (100 * (curr - prev) / |prev|)

/-- Consecutive period-over-period changes of a series, in period order;
every consecutive pair yields an entry, defined or not. -/
def periodChanges : List (String × ℚ) → List PChange
  | (p1, v1) :: (p2, v2) :: rest =>
      ⟨p1, p2, changePct v1 v2⟩ :: periodChanges ((p2, v2) :: rest)
  | _ => []

/-- Mean of the defined changes, 0 when none are defined. -/
def avgOfDefined (cs : List PChange) : ℚ :=
  let ds := cs.filterMap (fun c => c.change_pct)
  if ds.length = 0 then 0 else ds.sum / ds.length

/-- Direction classification with the ±1 percentage-point deadband. -/
def classifyDirection (avg : ℚ) : Direction :=
  if 1 < avg then Direction.increasing
  else if avg < -1 then Direction.decreasing
  else Direction.stable

/-- Modelled from the spec: the Trend Engine's computation for one
`(category, line_item)` series given its `(period, amount)` points in
period order. -/
def trendForSeries (cat li : String) (pts : List (String × ℚ)) : Trend :=
  let cs := periodChanges pts
  let avg := avgOfDefined cs
  ⟨li, cat, pts, cs, avg, classifyDirection avg⟩

/-- Observed `(period, amount)` points of a `(category, line_item)` series,
in canonical period order. -/
def seriesFor (records : List CanonicalRecord) (cat li : String) :
    List (String × ℚ) :=
  (periodsOf records).filterMap
    (fun p =>
      ((records.find?
          (fun r => r.period = p && r.category = cat && r.line_item = li)).map
        (fun r => (p, r.amount))))

/-- Modelled from the spec: the Trend Engine (backend source not in the
frontend tree) — one `Trend` per `(category, line_item)` present across at
least two periods. -/
def trendEngine (records : List CanonicalRecord) : List Trend :=
  (seriesKeysOf records).filterMap
    (fun k =>
      let pts := seriesFor records k.1 k.2
      if 2 ≤ pts.length then some (trendForSeries k.1 k.2 pts) else none)

/-! ### Anomaly Engine (spec §4.6), output shape from the frontend `Anomaly` type -/

/-- Anomaly severity, from the frontend union `"high" | "medium"`. -/
inductive Severity where
  | high
  | medium
deriving DecidableEq

/-- The frontend `Anomaly` artifact.  The dispersion is carried as the
population variance (`variance = std_dev²`): the reported `std_dev` and
`z_score` are its square root and the standardized deviation, which the
theorems state over the reals. -/
structure Anomaly where
  line_item : String
  category : String
  period : String
  amount : ℚ
  mean : ℚ
  variance : ℚ
  severity : Severity
  description : String
deriving DecidableEq

/-- Mean of the amounts of a series. -/
def meanOf (pts : List (String × ℚ)) : ℚ :=
  (pts.map (fun x => x.2)).sum / pts.length

/-- Population variance of the amounts of a series. -/
def varPop (pts : List (String × ℚ)) : ℚ :=
  (pts.map (fun x => (x.2 - meanOf pts) ^ 2)).sum / pts.length

/-- Direction word of the templated anomaly description. -/
def anomalyDescription (li : String) (a m : ℚ) : String :=
  li ++ " is unusually " ++ (if a < m then "below" else "above") ++ " its mean"

/-- Is the observation flagged?  `|amount − mean| ≥ 1.5 · std_dev`, stated
squared to stay in exact arithmetic: `4 (amount − mean)² ≥ 9 · variance`. -/
def flaggedObs (m v a : ℚ) : Bool := 9 * v ≤ 4 * (a - m) ^ 2

/-- Severity: `high` when `|amount − mean| ≥ 2.5 · std_dev`, i.e.
`4 (amount − mean)² ≥ 25 · variance`, else `medium`. -/
def severityObs (m v a : ℚ) : Severity :=
  if 25 * v ≤ 4 * (a - m) ^ 2 then Severity.high else Severity.medium

/-- Modelled from the spec: the Anomaly Engine's work on one series — only
series with at least 3 observations and non-zero dispersion are scanned
(a constant series is skipped entirely), and each flagged observation
yields one `Anomaly`. -/
def anomaliesForSeries (cat li : String) (pts : List (String × ℚ)) :
    List Anomaly :=
  let m := meanOf pts
  let v := varPop pts
  if pts.length < 3 || v = 0 then []
  else
    pts.filterMap
      (fun x =>
        if flaggedObs m v x.2 then
          some ⟨li, cat, x.1, x.2, m, v, severityObs m v x.2,
            anomalyDescription li x.2 m⟩
        else none)

/-- Modelled from the spec: the Anomaly Engine (backend source not in the
frontend tree), applied independently per series. -/
def anomalyEngine (records : List CanonicalRecord) : List Anomaly :=
  (seriesKeysOf records).flatMap
    (fun k => anomaliesForSeries k.1 k.2 (seriesFor records k.1 k.2))

/-! ### Comparison Engine (spec §4.7), shape from the frontend `PeriodComparison` -/

/-- One element of the frontend's `PeriodComparison.items`; an undefined
percent change is an explicit `none`, matching `number | null`. -/
structure CompItem where
  line_item : String
  period_1_value : ℚ
  period_2_value : ℚ
  absolute_change : ℚ
  percent_change : Option ℚ
deriving DecidableEq

/-- The frontend `PeriodComparison` artifact. -/
structure PeriodComparison where
  period_1 : String
  period_2 : String
  items : List CompItem
deriving DecidableEq

/-- Percent change of a comparison, undefined when the base value is 0. -/
def comparePct (v1 v2 : ℚ) : Option ℚ :=
  if v1 = 0 then none else some (100 * (v2 - v1) / |v1|)

/-- Comparison items: one per line_item present in both periods, in
first-appearance order. -/
def compareItems (records : List CanonicalRecord) (p1 p2 : String) :
    List CompItem :=
  (lineItemsOf records).filterMap
    (fun li =>
      match getAmount records p1 li, getAmount records p2 li with
      | some v1, some v2 => some ⟨li, v1, v2, v2 - v1, comparePct v1 v2⟩
      | _, _ => none)

/-- Modelled from the spec: the Comparison Engine (backend source not in
the frontend tree).  Explicit period labels are checked against the
dataset (`UnknownPeriod` when absent); when unspecified the two most
recent periods in canonical order are compared. -/
def comparisonEngine (records : List CanonicalRecord)
    (req : Option (String × String)) : Except String PeriodComparison :=
  match req with
  | some (p1, p2) =>
      if p1 ∈ periodsOf records ∧ p2 ∈ periodsOf records then
        Except.ok ⟨p1, p2, compareItems records p1 p2⟩
      else Except.error "UnknownPeriod"
  | none =>
      match (periodsOf records).reverse with
      | p2 :: p1 :: _ => Except.ok ⟨p1, p2, compareItems records p1 p2⟩
      | _ => Except.error "InsufficientData"

/-! ### Orchestrator (spec §4.8), shape from the frontend `AnalysisResponse` -/

/-- The frontend's `AnalysisResponse.summary`. -/
structure Summary where
  periods : List String
  categories : List String
  line_item_count : ℕ
  total_by_period : List (String × ℚ)
deriving DecidableEq

/-- Dataset-level summary: periods in canonical order, distinct
categories, line-item count, and per-period totals. -/
def summaryOf (records : List CanonicalRecord) : Summary :=
  ⟨periodsOf records,
    seenFold (records.map (fun r => r.category)),
    (lineItemsOf records).length,
    (periodsOf records).map
      (fun p => (p, ((records.filter (fun r => r.period = p)).map
        (fun r => r.amount)).sum))⟩

/-- The analysis artifact, mirroring the frontend `AnalysisResponse`
analytics fields; a failed comparison is captured in its own field and
never as an overall exception. -/
structure AnalysisArtifact where
  summary : Summary
  ratios : List (String × RVal)
  trends : List Trend
  anomalies : List Anomaly
  period_comparison : Except String PeriodComparison

/-- Modelled from the spec: `analyze` — pure aggregation of the four
engines over one record set; each engine's failure or insufficiency
surfaces inside its own field of the artifact. -/
def analyze (records : List CanonicalRecord)
    (req : Option (String × String)) : AnalysisArtifact :=
  ⟨summaryOf records, ratiosFor records, trendEngine records,
    anomalyEngine records, comparisonEngine records req⟩

/-- Modelled from the spec: the full pipeline — layout or parse failures
abort before any engine runs, otherwise the artifact is produced. -/
def runPipeline (t : RawTable) (req : Option (String × String)) :
    Except String AnalysisArtifact :=
  match detect_and_normalize t with
  | Except.error e => Except.error e
  | Except.ok (_, records, _) => Except.ok (analyze records req)

/-! ### FinancialCharts trend-chart data (from
`src/frontend/src/components/FinancialCharts.tsx`) -/

/-- JavaScript `x || 0` on a possibly-missing number: a missing value and
a zero value (the falsy numbers reachable here) are both replaced by 0. -/
def jsOrZero (x : Option ℚ) : ℚ :=
  match x with
  | none => 0
  | some v => if v = 0 then 0 else v

/-- Lookup in a `Record<string, number>` object literal. -/
def recLookup (m : List (String × ℚ)) (k : String) : Option ℚ :=
  (m.find? (fun e => e.1 = k)).map (fun e => e.2)

/-- The `topTrends` of `FinancialCharts`: `analysis.trends.slice(0, 5)`. -/
def topTrends (trends : List Trend) : List Trend := trends.take 5

/-- One point of the trend line chart: the period, plus one entry per top
trend holding `t.values_by_period[p] || 0`, exactly as built by
`FinancialCharts`. -/
def trendPoint (tops : List Trend) (p : String) : String × List (String × ℚ) :=
  (p, tops.map (fun t => (t.line_item, jsOrZero (recLookup t.values_by_period p))))

/-- The `trendLineData` of `FinancialCharts`: one point per period of the
summary. -/
def trendLineData (periods : List String) (trends : List Trend) :
    List (String × List (String × ℚ)) :=
  periods.map (trendPoint (topTrends trends))

/-! ### Shared lemmas -/

theorem seenFold_aux {α : Type} [DecidableEq α] (l acc : List α) (x : α) :
    (x ∈ l.foldl (fun acc a => if a ∈ acc then acc else acc ++ [a]) acc ↔
      x ∈ acc ∨ x ∈ l) := by
  induction l generalizing acc with
  | nil => simp
  | cons a l ih =>
    simp only [List.foldl_cons, ih, List.mem_cons]
    by_cases h : a ∈ acc
    · simp only [if_pos h]
      constructor
      · rintro (hx | hx)
        · exact Or.inl hx
        · exact Or.inr (Or.inr hx)
      · rintro (hx | hx | hx)
        · exact Or.inl hx
        · exact Or.inl (hx ▸ h)
        · exact Or.inr hx
    · simp only [if_neg h, List.mem_append, List.mem_singleton]
      tauto

/-- Membership in the first-seen deduplication is membership in the list. -/
theorem mem_seenFold {α : Type} [DecidableEq α] (l : List α) (x : α) :
    x ∈ seenFold l ↔ x ∈ l := by
  simpa [seenFold] using seenFold_aux l [] x

/-- A textual column is never a numeric period column. -/
theorem textual_not_numeric (cs : List Cell) (h : isTextualCol cs = true) :
    isNumericCol cs = false := by
  rcases List.any_eq_true.mp h with ⟨c, hc, hstr⟩
  cases c with
  | str s =>
    rw [Bool.eq_false_iff]
    intro hnum
    unfold isNumericCol at hnum
    rw [Bool.and_eq_true] at hnum
    have := List.all_eq_true.mp hnum.2 _ hc
    simp [isNumCell, isEmptyCell] at this
  | num q => simp [isStrCell] at hstr
  | empty => simp [isStrCell] at hstr

/-! ### C7: the layout-detection contract -/

/-- The spec's long-format condition, stated semantically: every required
concept is matched case-insensitively (aliases accepted) by some column. -/
def LongShape (t : RawTable) : Prop :=
  ∀ c ∈ requiredConcepts, ∃ n ∈ t.columns, matchName c n = true

/-- The spec's wide-format condition, stated semantically: some column is
textual and at least two numeric period columns exist. -/
def WideShape (t : RawTable) : Prop :=
  (∃ j ∈ List.range t.columns.length, isTextualCol (colCells t j) = true) ∧
    2 ≤ numericColCount t

instance (t : RawTable) : Decidable (LongShape t) := by
  unfold LongShape
  infer_instance

instance (t : RawTable) : Decidable (WideShape t) := by
  unfold WideShape
  infer_instance

theorem longCond_iff (t : RawTable) : longCond t = true ↔ LongShape t := by
  simp [longCond, LongShape, List.all_eq_true, List.any_eq_true]

theorem wideCond_iff (t : RawTable) : wideCond t = true ↔ WideShape t := by
  unfold wideCond labelColIdx
  cases h : (List.range t.columns.length).find?
      (fun j => isTextualCol (colCells t j)) with
  | none =>
    simp only [Bool.false_eq_true, false_iff]
    rintro ⟨⟨j, hj, htx⟩, _⟩
    have := List.find?_eq_none.mp h j hj
    simp only [htx, not_true_eq_false] at this
  | some i =>
    have hi : isTextualCol (colCells t i) = true := by
      simpa using List.find?_some h
    have him : i ∈ List.range t.columns.length := List.mem_of_find?_eq_some h
    have hcount : numericColCountExcept t i = numericColCount t := by
      unfold numericColCountExcept numericColCount
      refine List.countP_congr (fun j hj => ?_)
      by_cases hji : j = i
      · subst hji
        simp [textual_not_numeric _ hi]
      · simp [hji]
    simp only [decide_eq_true_eq, hcount]
    constructor
    · exact fun hc => ⟨⟨i, him, hi⟩, hc⟩
    · exact fun hc => hc.2

/-- C7: the Layout Detector returns Long exactly when the required column
set `{period, category, line_item, amount}` is matched case-insensitively
(aliases accepted); otherwise Wide exactly when a textual column and two
or more numeric period columns exist; otherwise it fails with
`UnrecognizedLayout`, which `detect_and_normalize` surfaces with no
partial output — it never silently defaults to a layout. -/
theorem detectLayout_contract (t : RawTable) :
    (detectLayout t = Except.ok Layout.long ↔ LongShape t) ∧
    (detectLayout t = Except.ok Layout.wide ↔ ¬LongShape t ∧ WideShape t) ∧
    (detectLayout t = Except.error "UnrecognizedLayout" ↔
      ¬LongShape t ∧ ¬WideShape t) ∧
    (∀ e, detectLayout t = Except.error e →
      detect_and_normalize t = Except.error e) ∧
    matchName "amount" "Value" = true ∧
    matchName "line_item" "LABEL" = true ∧
    matchName "amount" "Revenue" = false := by
  have hde : ∀ e, detectLayout t = Except.error e →
      detect_and_normalize t = Except.error e := by
    intro e he
    unfold detect_and_normalize
    rw [he]
  refine ⟨?_, ?_, ?_, hde, by decide, by decide, by decide⟩ <;> unfold detectLayout
  · by_cases hl : longCond t
    · rw [if_pos hl]
      exact iff_of_true rfl ((longCond_iff t).mp hl)
    · rw [if_neg hl]
      refine iff_of_false ?_ (fun hs => hl ((longCond_iff t).mpr hs))
      by_cases hw : wideCond t <;> simp [hw]
  · by_cases hl : longCond t
    · rw [if_pos hl]
      exact iff_of_false (by simp)
        (fun hc => hc.1 ((longCond_iff t).mp hl))
    · rw [if_neg hl]
      have hnl : ¬LongShape t := fun hs => hl ((longCond_iff t).mpr hs)
      by_cases hw : wideCond t
      · rw [if_pos hw]
        exact iff_of_true rfl ⟨hnl, (wideCond_iff t).mp hw⟩
      · rw [if_neg hw]
        exact iff_of_false (by simp)
          (fun hc => hw ((wideCond_iff t).mpr hc.2))
  · by_cases hl : longCond t
    · rw [if_pos hl]
      exact iff_of_false (by simp)
        (fun hc => hc.1 ((longCond_iff t).mp hl))
    · rw [if_neg hl]
      have hnl : ¬LongShape t := fun hs => hl ((longCond_iff t).mpr hs)
      by_cases hw : wideCond t
      · rw [if_pos hw]
        exact iff_of_false (by simp)
          (fun hc => hc.2 ((wideCond_iff t).mp hw))
      · rw [if_neg hw]
        exact iff_of_true rfl
          ⟨hnl, fun hs => hw ((wideCond_iff t).mpr hs)⟩

/-- A table that is neither long nor wide (a single numeric column). -/
def tableBadEx : RawTable := ⟨["A"], [[Cell.num 1]]⟩

theorem detectLayout_contract_witness :
    detectLayout tableBadEx = Except.error "UnrecognizedLayout" ∧
    detect_and_normalize tableBadEx = Except.error "UnrecognizedLayout" := by
  have h := detectLayout_contract tableBadEx
  have he : detectLayout tableBadEx = Except.error "UnrecognizedLayout" :=
    h.2.2.1.mpr (by decide)
  exact ⟨he, h.2.2.2.1 _ he⟩

/-! ### C6: normalization never invents an amount -/

theorem normalizeLong_eq_filterMap (t : RawTable) (ip ic il ia : ℕ)
    (hp : colIdx t "period" = some ip) (hc : colIdx t "category" = some ic)
    (hl : colIdx t "line_item" = some il) (ha : colIdx t "amount" = some ia) :
    (normalizeLong t).1 = t.rows.filterMap (rowRecordLong ip ic il ia) := by
  unfold normalizeLong
  rw [hp, hc, hl, ha]

theorem length_filterMap_eq_countP {α β : Type} (f : α → Option β)
    (l : List α) :
    (l.filterMap f).length = l.countP (fun a => (f a).isSome) := by
  induction l with
  | nil => rfl
  | cons a l ih =>
    cases h : f a <;>
      simp [List.filterMap_cons, h, List.countP_cons, ih]

theorem wideFold_length_le (li : ℕ) (pcols : List (ℕ × String))
    (rows : List (List Cell)) :
    ∀ cat recs,
      ((rows.foldl (wideStep li pcols) (cat, recs)).2).length ≤
        recs.length +
          rows.countP (fun row => !(isHeaderRow li pcols row)) * pcols.length := by
  induction rows with
  | nil => intro cat recs; simp
  | cons row rest ih =>
    intro cat recs
    rw [List.foldl_cons, List.countP_cons]
    by_cases h : isHeaderRow li pcols row
    · have step : wideStep li pcols (cat, recs) row =
          (cellText (row.getD li Cell.empty), recs) := by
        unfold wideStep
        rw [if_pos h]
      rw [step]
      simpa [h] using ih (cellText (row.getD li Cell.empty)) recs
    · have step : wideStep li pcols (cat, recs) row =
          (cat, recs ++ wideRowRecords li pcols cat row) := by
        unfold wideStep
        rw [if_neg h]
      rw [step]
      have h1 := ih cat (recs ++ wideRowRecords li pcols cat row)
      rw [List.length_append] at h1
      have h2 : (wideRowRecords li pcols cat row).length ≤ pcols.length :=
        List.length_filterMap_le _ _
      have h3 : recs.length + (wideRowRecords li pcols cat row).length +
          rest.countP (fun row => !(isHeaderRow li pcols row)) * pcols.length ≤
          recs.length + pcols.length +
          rest.countP (fun row => !(isHeaderRow li pcols row)) * pcols.length :=
        Nat.add_le_add_right (Nat.add_le_add_left h2 _) _
      have h4 := le_trans h1 h3
      simp only [Bool.not_eq_true] at h
      simp only [h, Bool.not_false, if_true, if_pos]
      refine le_trans h4 (le_of_eq ?_)
      ring

theorem wideFold_mem (li : ℕ) (pcols : List (ℕ × String))
    (rows : List (List Cell)) :
    ∀ cat recs r, r ∈ (rows.foldl (wideStep li pcols) (cat, recs)).2 →
      r ∈ recs ∨ ∃ row ∈ rows, ∃ cat2, r ∈ wideRowRecords li pcols cat2 row := by
  induction rows with
  | nil => intro cat recs r hr; exact Or.inl hr
  | cons row rest ih =>
    intro cat recs r hr
    rw [List.foldl_cons] at hr
    unfold wideStep at hr
    by_cases h : isHeaderRow li pcols row
    · rw [if_pos h] at hr
      rcases ih _ _ _ hr with h1 | ⟨row2, hm, cat2, h2⟩
      · exact Or.inl h1
      · exact Or.inr ⟨row2, List.mem_cons_of_mem _ hm, cat2, h2⟩
    · rw [if_neg h] at hr
      rcases ih _ _ _ hr with h1 | ⟨row2, hm, cat2, h2⟩
      · rcases List.mem_append.mp h1 with h3 | h3
        · exact Or.inl h3
        · exact Or.inr ⟨row, List.mem_cons_self _ _, cat, h3⟩
      · exact Or.inr ⟨row2, List.mem_cons_of_mem _ hm, cat2, h2⟩

/-- C6: normalization never invents an amount.  On the long path (with the
four required columns resolved) the record count equals the number of rows
whose amount cell coerces — one record per numeric-amount row, none for
non-numeric rows — and every record's amount is the coerced value of its
row's amount cell.  Empty and non-numeric cells coerce to nothing.  On the
wide path the record count is at most (item rows) × (period columns), and
every record's amount is the coerced value of some cell. -/
theorem normalize_never_invents (t : RawTable) :
    (∀ ip ic il ia, colIdx t "period" = some ip → colIdx t "category" = some ic →
      colIdx t "line_item" = some il → colIdx t "amount" = some ia →
      (normalizeLong t).1.length =
        t.rows.countP (fun row => (coerceCell (row.getD ia Cell.empty)).isSome) ∧
      ∀ r ∈ (normalizeLong t).1, ∃ row ∈ t.rows,
        coerceCell (row.getD ia Cell.empty) = some r.amount) ∧
    coerceCell Cell.empty = none ∧
    coerceCell (Cell.str "n/a") = none ∧
    (∀ li, labelColIdx t = some li →
      (normalizeWide t).length ≤
        t.rows.countP (fun row => !(isHeaderRow li (periodColsOf t li) row)) *
          (periodColsOf t li).length ∧
      ∀ r ∈ normalizeWide t, ∃ row ∈ t.rows, ∃ j,
        coerceCell (row.getD j Cell.empty) = some r.amount) := by
  refine ⟨?_, rfl, by decide, ?_⟩
  · intro ip ic il ia hp hc hl ha
    rw [normalizeLong_eq_filterMap t ip ic il ia hp hc hl ha]
    constructor
    · rw [length_filterMap_eq_countP]
      refine List.countP_congr (fun row hrow => ?_)
      unfold rowRecordLong
      cases coerceCell (row.getD ia Cell.empty) <;> simp
    · intro r hr
      rcases List.mem_filterMap.mp hr with ⟨row, hrow, hsome⟩
      refine ⟨row, hrow, ?_⟩
      unfold rowRecordLong at hsome
      rcases Option.map_eq_some'.mp hsome with ⟨a, ha, hr2⟩
      rw [ha, ← hr2]
  · intro li hli
    have hw : normalizeWide t =
        (t.rows.foldl (wideStep li (periodColsOf t li)) ("Uncategorized", [])).2 := by
      unfold normalizeWide
      rw [hli]
    constructor
    · rw [hw]
      simpa using wideFold_length_le li (periodColsOf t li) t.rows "Uncategorized" []
    · intro r hr
      rw [hw] at hr
      rcases wideFold_mem li (periodColsOf t li) t.rows "Uncategorized" [] r hr with
        h1 | ⟨row, hrow, cat2, h2⟩
      · simp at h1
      · rcases List.mem_filterMap.mp h2 with ⟨pc, _, hsome⟩
        refine ⟨row, hrow, pc.1, ?_⟩
        rcases Option.map_eq_some'.mp hsome with ⟨a, ha, hr2⟩
        rw [ha, ← hr2]

/-- A long table with one numeric-amount row and one non-numeric row. -/
def tableLongMix : RawTable :=
  ⟨["Period", "Category", "Line_Item", "Value"],
    [[Cell.str "Q1", Cell.str "Inc", Cell.str "Revenue", Cell.num 100],
     [Cell.str "Q2", Cell.str "Inc", Cell.str "Revenue", Cell.str "n/a"]]⟩

/-- A wide table with a header row, an empty cell and two period columns. -/
def tableWideMix : RawTable :=
  ⟨["Item", "Q1", "Q2"],
    [[Cell.str "Income Statement", Cell.empty, Cell.empty],
     [Cell.str "Revenue", Cell.num 100, Cell.empty],
     [Cell.str "COGS", Cell.num 40, Cell.num 60]]⟩

theorem normalize_never_invents_witness :
    (normalizeLong tableLongMix).1.length = 1 ∧
    (normalizeWide tableWideMix).length ≤ 4 := by
  have h1 := (normalize_never_invents tableLongMix).1 0 1 2 3
    (by decide) (by decide) (by decide) (by decide)
  have h2 := ((normalize_never_invents tableWideMix).2.2.2 0 (by decide)).1
  refine ⟨?_, ?_⟩
  · rw [h1.1]
    decide
  · refine le_trans h2 ?_
    decide

/-! ### Trend lemmas, C3 and C9 -/

/-- The `i`-th period-over-period change pairs the `i`-th and `(i+1)`-th
points of the series. -/
theorem periodChanges_get (pts : List (String × ℚ)) (i : ℕ)
    (h : i + 1 < pts.length) :
    (periodChanges pts)[i]? =
      some ⟨(pts.get ⟨i, Nat.lt_of_succ_lt h⟩).1, (pts.get ⟨i + 1, h⟩).1,
        changePct (pts.get ⟨i, Nat.lt_of_succ_lt h⟩).2 (pts.get ⟨i + 1, h⟩).2⟩ := by
  induction pts generalizing i with
  | nil => simp at h
  | cons p1 rest ih =>
    cases rest with
    | nil => simp at h
    | cons p2 rest2 =>
      cases i with
      | zero => simp [periodChanges]
      | succ n =>
        have h2 : n + 1 < (p2 :: rest2).length := by simpa using h
        have hrec := ih n h2
        simpa [periodChanges] using hrec

/-- There is one change entry per consecutive pair. -/
theorem periodChanges_length (pts : List (String × ℚ)) :
    (periodChanges pts).length = pts.length - 1 := by
  induction pts with
  | nil => rfl
  | cons p1 rest ih =>
    cases rest with
    | nil => rfl
    | cons p2 rest2 => simpa [periodChanges] using ih

theorem classifyDirection_iff (avg : ℚ) :
    (classifyDirection avg = Direction.increasing ↔ 1 < avg) ∧
    (classifyDirection avg = Direction.decreasing ↔ avg < -1) ∧
    (classifyDirection avg = Direction.stable ↔ -1 ≤ avg ∧ avg ≤ 1) := by
  unfold classifyDirection
  split_ifs with h1 h2
  · exact ⟨iff_of_true rfl h1, iff_of_false (by simp) (by linarith),
      iff_of_false (by simp) (fun hc => by linarith [hc.2])⟩
  · exact ⟨iff_of_false (by simp) h1, iff_of_true rfl h2,
      iff_of_false (by simp) (fun hc => by linarith [hc.1])⟩
  · exact ⟨iff_of_false (by simp) h1, iff_of_false (by simp) h2,
      iff_of_true rfl ⟨by linarith, by linarith⟩⟩

/-- A series key whose series is non-empty occurs among the dataset's
series keys. -/
theorem seriesKey_mem_of_series_ne_nil (records : List CanonicalRecord)
    (cat li : String) (h : seriesFor records cat li ≠ []) :
    (cat, li) ∈ seriesKeysOf records := by
  obtain ⟨x, hx⟩ := List.exists_mem_of_ne_nil _ h
  unfold seriesFor at hx
  rcases List.mem_filterMap.mp hx with ⟨p, _, hsome⟩
  rcases Option.map_eq_some'.mp hsome with ⟨r, hfind, _⟩
  have hpred := List.find?_some hfind
  have hmem := List.mem_of_find?_eq_some hfind
  rw [Bool.and_eq_true, Bool.and_eq_true] at hpred
  have hc : r.category = cat := by
    have := hpred.1.2
    simpa using this
  have hl : r.line_item = li := by
    have := hpred.2
    simpa using this
  unfold seriesKeysOf
  rw [mem_seenFold]
  exact List.mem_map.mpr ⟨r, hmem, by rw [hc, hl]⟩

/-- Characterization of the mean of the defined changes. -/
theorem avgOfDefined_spec (cs : List PChange) :
    (cs.filterMap (fun c => c.change_pct) = [] → avgOfDefined cs = 0) ∧
    (cs.filterMap (fun c => c.change_pct) ≠ [] →
      avgOfDefined cs * (cs.filterMap (fun c => c.change_pct)).length =
        (cs.filterMap (fun c => c.change_pct)).sum) := by
  constructor
  · intro h
    unfold avgOfDefined
    simp [h]
  · intro h
    have h0 : (cs.filterMap (fun c => c.change_pct)).length ≠ 0 :=
      fun hl => h (List.length_eq_zero.mp hl)
    unfold avgOfDefined
    simp only [if_neg h0]
    exact div_mul_cancel₀ _ (Nat.cast_ne_zero.mpr h0)

/-- C3: per-period trend computation.  Every dataset series spanning at
least two periods yields its `Trend` in the engine output; change entries
pair consecutive points with `change_pct = 100·(curr − prev)/|prev|`
(undefined when `prev = 0`); `avg_change_pct` is the mean of the defined
changes (0 when none are defined); the direction is `increasing` iff the
average exceeds +1, `decreasing` iff below −1, else `stable`; the series
[100, 102, 104] averages 101/51 ≈ 2.0 and is `increasing`, while
[100, 100, 100] is `stable`. -/
theorem trendEngine_spec :
    (∀ records cat li, 2 ≤ (seriesFor records cat li).length →
      trendForSeries cat li (seriesFor records cat li) ∈ trendEngine records) ∧
    (∀ cat li pts i, ∀ h : i + 1 < pts.length,
      (trendForSeries cat li pts).period_changes[i]? =
        some ⟨(pts.get ⟨i, Nat.lt_of_succ_lt h⟩).1, (pts.get ⟨i + 1, h⟩).1,
          changePct (pts.get ⟨i, Nat.lt_of_succ_lt h⟩).2 (pts.get ⟨i + 1, h⟩).2⟩) ∧
    (∀ prev curr, changePct prev curr =
      if prev = 0 then none else some (100 * (curr - prev) / |prev|)) ∧
    (∀ cat li pts,
      ((trendForSeries cat li pts).period_changes.filterMap
          (fun c => c.change_pct) = [] →
        (trendForSeries cat li pts).avg_change_pct = 0) ∧
      ((trendForSeries cat li pts).period_changes.filterMap
          (fun c => c.change_pct) ≠ [] →
        (trendForSeries cat li pts).avg_change_pct *
            ((trendForSeries cat li pts).period_changes.filterMap
              (fun c => c.change_pct)).length =
          ((trendForSeries cat li pts).period_changes.filterMap
            (fun c => c.change_pct)).sum)) ∧
    (∀ cat li pts,
      ((trendForSeries cat li pts).direction = Direction.increasing ↔
        1 < (trendForSeries cat li pts).avg_change_pct) ∧
      ((trendForSeries cat li pts).direction = Direction.decreasing ↔
        (trendForSeries cat li pts).avg_change_pct < -1) ∧
      ((trendForSeries cat li pts).direction = Direction.stable ↔
        -1 ≤ (trendForSeries cat li pts).avg_change_pct ∧
          (trendForSeries cat li pts).avg_change_pct ≤ 1)) ∧
    ((trendForSeries "c" "x" [("P1", 100), ("P2", 102), ("P3", 104)]).avg_change_pct
        = 101 / 51 ∧
      |(trendForSeries "c" "x" [("P1", 100), ("P2", 102), ("P3", 104)]).avg_change_pct
        - 2| < 1 / 10 ∧
      (trendForSeries "c" "x" [("P1", 100), ("P2", 102), ("P3", 104)]).direction
        = Direction.increasing) ∧
    (trendForSeries "c" "x" [("P1", 100), ("P2", 100), ("P3", 100)]).direction
      = Direction.stable := by
  refine ⟨?_, ?_, fun prev curr => rfl, ?_, ?_, ?_, ?_⟩
  · intro records cat li h
    unfold trendEngine
    refine List.mem_filterMap.mpr ⟨(cat, li), ?_, ?_⟩
    · refine seriesKey_mem_of_series_ne_nil records cat li ?_
      intro e
      rw [e] at h
      simp at h
    · simp [h]
  · intro cat li pts i h
    exact periodChanges_get pts i h
  · intro cat li pts
    exact avgOfDefined_spec (periodChanges pts)
  · intro cat li pts
    exact classifyDirection_iff (avgOfDefined (periodChanges pts))
  · refine ⟨?_, ?_, ?_⟩
    · show avgOfDefined (periodChanges [("P1", 100), ("P2", 102), ("P3", 104)])
        = 101 / 51
      norm_num [periodChanges, changePct, avgOfDefined,
        List.filterMap_cons, List.filterMap_nil]
    · show |avgOfDefined (periodChanges [("P1", 100), ("P2", 102), ("P3", 104)])
        - 2| < 1 / 10
      norm_num [periodChanges, changePct, avgOfDefined,
        List.filterMap_cons, List.filterMap_nil]
      rw [abs_of_pos (show (0 : ℚ) < 1 / 51 by norm_num)]
      norm_num
    · show classifyDirection
        (avgOfDefined (periodChanges [("P1", 100), ("P2", 102), ("P3", 104)]))
        = Direction.increasing
      norm_num [periodChanges, changePct, avgOfDefined, classifyDirection,
        List.filterMap_cons, List.filterMap_nil]
  · show classifyDirection
      (avgOfDefined (periodChanges [("P1", 100), ("P2", 100), ("P3", 100)]))
      = Direction.stable
    norm_num [periodChanges, changePct, avgOfDefined, classifyDirection,
      List.filterMap_cons, List.filterMap_nil]

/-- Dataset used across trend-engine witnesses: one revenue series over
three periods. -/
def recsTrend : List CanonicalRecord :=
  [⟨"P1", "Income", "Revenue", 100⟩, ⟨"P2", "Income", "Revenue", 102⟩,
   ⟨"P3", "Income", "Revenue", 104⟩]

theorem trendEngine_spec_witness :
    trendForSeries "Income" "Revenue" (seriesFor recsTrend "Income" "Revenue") ∈
      trendEngine recsTrend ∧
    (trendForSeries "c" "x" [("P1", 100), ("P2", 102), ("P3", 104)]).period_changes[0]? =
      some ⟨"P1", "P2", some 2⟩ := by
  have h := trendEngine_spec
  constructor
  · exact h.1 recsTrend "Income" "Revenue" (by decide)
  · rw [h.2.1 "c" "x" [("P1", 100), ("P2", 102), ("P3", 104)] 0 (by decide)]
    norm_num [changePct]

/-- C9: an undefined change is an explicit entry, not a dropped one.  For
every consecutive pair of a series there is an entry in `period_changes`
whose `change_pct` is `none` exactly when the previous value is 0; the
comparison items use the same explicit-`none` representation when the base
value is 0. -/
theorem null_change_represented :
    (∀ cat li pts i, ∀ h : i + 1 < pts.length,
      ∃ e, (trendForSeries cat li pts).period_changes[i]? = some e ∧
        e.fromP = (pts.get ⟨i, Nat.lt_of_succ_lt h⟩).1 ∧
        e.toP = (pts.get ⟨i + 1, h⟩).1 ∧
        (e.change_pct = none ↔ (pts.get ⟨i, Nat.lt_of_succ_lt h⟩).2 = 0)) ∧
    ((trendForSeries "c" "x" [("A", 0), ("B", 5)]).period_changes =
      [⟨"A", "B", none⟩]) ∧
    (∀ records p1 p2 li v1 v2, li ∈ lineItemsOf records →
      getAmount records p1 li = some v1 → getAmount records p2 li = some v2 →
      (⟨li, v1, v2, v2 - v1, comparePct v1 v2⟩ : CompItem) ∈
          compareItems records p1 p2 ∧
        (comparePct v1 v2 = none ↔ v1 = 0)) := by
  refine ⟨?_, ?_, ?_⟩
  · intro cat li pts i h
    refine ⟨_, periodChanges_get pts i h, rfl, rfl, ?_⟩
    unfold changePct
    by_cases hz : (pts.get ⟨i, Nat.lt_of_succ_lt h⟩).2 = 0
    · simp [hz]
    · simp [hz]
  · show periodChanges [("A", 0), ("B", 5)] = [⟨"A", "B", none⟩]
    norm_num [periodChanges, changePct]
  · intro records p1 p2 li v1 v2 hmem h1 h2
    constructor
    · unfold compareItems
      refine List.mem_filterMap.mpr ⟨li, hmem, ?_⟩
      rw [h1, h2]
    · unfold comparePct
      by_cases hz : v1 = 0
      · simp [hz]
      · simp [hz]

theorem null_change_represented_witness :
    (∃ e, (trendForSeries "c" "x" [("A", 0), ("B", 5)]).period_changes[0]? =
        some e ∧ e.change_pct = none) ∧
    (⟨"Widgets", 0, 7, 7, none⟩ : CompItem) ∈
      compareItems [⟨"Q1", "U", "Widgets", 0⟩, ⟨"Q2", "U", "Widgets", 7⟩]
        "Q1" "Q2" := by
  have h := null_change_represented
  constructor
  · obtain ⟨e, he, _, _, hiff⟩ :=
      h.1 "c" "x" [("A", 0), ("B", 5)] 0 (by decide)
    exact ⟨e, he, hiff.mpr (by decide)⟩
  · have h3 := (h.2.2 [⟨"Q1", "U", "Widgets", 0⟩, ⟨"Q2", "U", "Widgets", 7⟩]
      "Q1" "Q2" "Widgets" 0 7 (by decide) (by decide) (by decide)).1
    have e1 : (7 : ℚ) - 0 = 7 := by norm_num
    have e2 : comparePct 0 7 = none := by simp [comparePct]
    rw [e1, e2] at h3
    exact h3

/-! ### Anomaly lemmas and C4 -/

/-- `c ≤ |x|/√v` is the squared comparison `c²·v ≤ x²`, for `v > 0` and
`c ≥ 0`. -/
theorem le_abs_div_sqrt_iff (x v c : ℝ) (hv : 0 < v) (hc : 0 ≤ c) :
    c ≤ |x| / Real.sqrt v ↔ c ^ 2 * v ≤ x ^ 2 := by
  have hs : 0 < Real.sqrt v := Real.sqrt_pos.mpr hv
  rw [le_div_iff₀ hs]
  constructor
  · intro h
    have h2 : (c * Real.sqrt v) ^ 2 ≤ |x| ^ 2 :=
      pow_le_pow_left₀ (by positivity) h 2
    calc c ^ 2 * v = (c * Real.sqrt v) ^ 2 := by
          rw [mul_pow, Real.sq_sqrt hv.le]
      _ ≤ |x| ^ 2 := h2
      _ = x ^ 2 := sq_abs x
  · intro h
    have h2 : (c * Real.sqrt v) ^ 2 ≤ |x| ^ 2 := by
      rw [mul_pow, Real.sq_sqrt hv.le, sq_abs]
      exact h
    have h3 := Real.sqrt_le_sqrt h2
    rwa [Real.sqrt_sq (by positivity), Real.sqrt_sq (abs_nonneg x)] at h3

/-- Population variance is non-negative. -/
theorem varPop_nonneg (pts : List (String × ℚ)) : 0 ≤ varPop pts := by
  unfold varPop
  apply div_nonneg
  · apply List.sum_nonneg
    intro x hx
    rcases List.mem_map.mp hx with ⟨y, _, rfl⟩
    positivity
  · positivity

/-- The flag test is the `|z| ≥ 3/2` comparison of the spec, with
`z = (amount − mean)/std_dev` and `std_dev = √variance`. -/
theorem flaggedObs_iff (m v a : ℚ) (hv : 0 < v) :
    flaggedObs m v a = true ↔
      (3 : ℝ) / 2 ≤ |((a - m : ℚ) : ℝ)| / Real.sqrt ((v : ℚ) : ℝ) := by
  have hvr : (0 : ℝ) < ((v : ℚ) : ℝ) := by exact_mod_cast hv
  rw [le_abs_div_sqrt_iff _ _ _ hvr (by norm_num)]
  unfold flaggedObs
  rw [decide_eq_true_eq]
  constructor
  · intro h
    have hr : ((9 * v : ℚ) : ℝ) ≤ ((4 * (a - m) ^ 2 : ℚ) : ℝ) := by
      exact_mod_cast h
    push_cast at hr ⊢
    nlinarith
  · intro h
    push_cast at h
    have hr : ((9 * v : ℚ) : ℝ) ≤ ((4 * (a - m) ^ 2 : ℚ) : ℝ) := by
      push_cast
      nlinarith
    exact_mod_cast hr

/-- The severity test is the `|z| ≥ 5/2` comparison of the spec. -/
theorem severityObs_iff (m v a : ℚ) (hv : 0 < v) :
    severityObs m v a = Severity.high ↔
      (5 : ℝ) / 2 ≤ |((a - m : ℚ) : ℝ)| / Real.sqrt ((v : ℚ) : ℝ) := by
  have hvr : (0 : ℝ) < ((v : ℚ) : ℝ) := by exact_mod_cast hv
  rw [le_abs_div_sqrt_iff _ _ _ hvr (by norm_num)]
  unfold severityObs
  constructor
  · intro h
    by_cases hq : 25 * v ≤ 4 * (a - m) ^ 2
    · have hr : ((25 * v : ℚ) : ℝ) ≤ ((4 * (a - m) ^ 2 : ℚ) : ℝ) := by
        exact_mod_cast hq
      push_cast at hr ⊢
      nlinarith
    · rw [if_neg hq] at h
      exact absurd h (by simp)
  · intro h
    push_cast at h
    have hr : ((25 * v : ℚ) : ℝ) ≤ ((4 * (a - m) ^ 2 : ℚ) : ℝ) := by
      push_cast
      nlinarith
    have hq : 25 * v ≤ 4 * (a - m) ^ 2 := by exact_mod_cast hr
    rw [if_pos hq]

/-- The series of the spec's own anomaly example. -/
def ptsSpike : List (String × ℚ) :=
  [("P1", 100), ("P2", 102), ("P3", 98), ("P4", 500)]

/-- C4 counterexample: on [100, 102, 98, 500] the mean is 200 and the
population variance 30002, so the z-score of the 500 observation is
300/√30002 ≈ 1.73 — at least 1.5 (flagged) but below 2.5, hence severity
`medium`, not the `high` the claim asserts. -/
theorem anomaly_severity_counterexample :
    (anomaliesForSeries "c" "x" ptsSpike).map (fun a => (a.period, a.severity)) =
      [("P4", Severity.medium)] ∧
    Severity.medium ≠ Severity.high ∧
    meanOf ptsSpike = 200 ∧ varPop ptsSpike = 30002 ∧
    9 * varPop ptsSpike ≤ 4 * ((500 : ℚ) - meanOf ptsSpike) ^ 2 ∧
    4 * ((500 : ℚ) - meanOf ptsSpike) ^ 2 < 25 * varPop ptsSpike := by
  have hm : meanOf ptsSpike = 200 := by
    norm_num [meanOf, ptsSpike]
  have hv : varPop ptsSpike = 30002 := by
    norm_num [varPop, meanOf, ptsSpike]
  refine ⟨?_, by simp, hm, hv, by rw [hm, hv]; norm_num, by rw [hm, hv]; norm_num⟩
  unfold anomaliesForSeries
  rw [hm, hv]
  norm_num [ptsSpike, flaggedObs, severityObs,
      List.filterMap_cons, List.filterMap_nil]

/-- C4 amended: the Anomaly Engine computes mean and population variance
per series, skips series with fewer than 3 observations or zero variance
(a constant series yields no anomalies), flags an observation exactly when
`|z| ≥ 1.5` with `z = (amount − mean)/√variance`, and assigns severity
`high` exactly when `|z| ≥ 2.5` (else `medium`); every series anomaly
surfaces in the engine output.  On [100, 102, 98, 500] the 500 observation
is the only flag and its severity is `medium`; [50, 50, 50] yields none. -/
theorem anomalyEngine_spec :
    (∀ cat li pts, pts.length < 3 ∨ varPop pts = 0 →
      anomaliesForSeries cat li pts = []) ∧
    (∀ cat li pts p a, 3 ≤ pts.length → varPop pts ≠ 0 → (p, a) ∈ pts →
      ((⟨li, cat, p, a, meanOf pts, varPop pts,
          severityObs (meanOf pts) (varPop pts) a,
          anomalyDescription li a (meanOf pts)⟩ : Anomaly) ∈
            anomaliesForSeries cat li pts ↔
        (3 : ℝ) / 2 ≤ |((a - meanOf pts : ℚ) : ℝ)| /
          Real.sqrt ((varPop pts : ℚ) : ℝ))) ∧
    (∀ m v a, 0 < v → (severityObs m v a = Severity.high ↔
      (5 : ℝ) / 2 ≤ |((a - m : ℚ) : ℝ)| / Real.sqrt ((v : ℚ) : ℝ))) ∧
    (∀ records k an, k ∈ seriesKeysOf records →
      an ∈ anomaliesForSeries k.1 k.2 (seriesFor records k.1 k.2) →
      an ∈ anomalyEngine records) ∧
    ((anomaliesForSeries "c" "x" ptsSpike).map
        (fun a => (a.period, a.severity)) = [("P4", Severity.medium)]) ∧
    anomaliesForSeries "c" "x" [("P1", 50), ("P2", 50), ("P3", 50)] = [] := by
  have hflag : ∀ cat li pts p a, 3 ≤ pts.length → varPop pts ≠ 0 → (p, a) ∈ pts →
      ((⟨li, cat, p, a, meanOf pts, varPop pts,
          severityObs (meanOf pts) (varPop pts) a,
          anomalyDescription li a (meanOf pts)⟩ : Anomaly) ∈
            anomaliesForSeries cat li pts ↔
        (3 : ℝ) / 2 ≤ |((a - meanOf pts : ℚ) : ℝ)| /
          Real.sqrt ((varPop pts : ℚ) : ℝ)) := by
    intro cat li pts p a h3 hv hmem
    have hvpos : 0 < varPop pts := lt_of_le_of_ne (varPop_nonneg pts) (Ne.symm hv)
    rw [← flaggedObs_iff (meanOf pts) (varPop pts) a hvpos]
    unfold anomaliesForSeries
    rw [if_neg (by
      simp only [Bool.or_eq_true, not_or, decide_eq_true_eq]
      exact ⟨by omega, hv⟩)]
    constructor
    · intro hin
      rcases List.mem_filterMap.mp hin with ⟨x, _, hx⟩
      by_cases hfx : flaggedObs (meanOf pts) (varPop pts) x.2
      · rw [if_pos hfx] at hx
        have hax : x.2 = a := congrArg Anomaly.amount (Option.some_inj.mp hx)
        rwa [hax] at hfx
      · rw [if_neg hfx] at hx
        exact absurd hx (by simp)
    · intro hf
      refine List.mem_filterMap.mpr ⟨(p, a), hmem, ?_⟩
      rw [if_pos hf]
  refine ⟨?_, hflag, fun m v a hv => severityObs_iff m v a hv, ?_, ?_, ?_⟩
  · intro cat li pts h
    unfold anomaliesForSeries
    rw [if_pos]
    rcases h with h | h
    · simp [h]
    · simp [h]
  · intro records k an hk han
    unfold anomalyEngine
    exact List.mem_flatMap.mpr ⟨k, hk, han⟩
  · have hm : meanOf ptsSpike = 200 := by
      norm_num [meanOf, ptsSpike]
    have hv : varPop ptsSpike = 30002 := by
      norm_num [varPop, meanOf, ptsSpike]
    unfold anomaliesForSeries
    rw [hm, hv]
    norm_num [ptsSpike, flaggedObs, severityObs,
      List.filterMap_cons, List.filterMap_nil]
  · have hv : varPop [("P1", 50), ("P2", 50), ("P3", 50)] = 0 := by
      norm_num [varPop, meanOf]
    unfold anomaliesForSeries
    rw [if_pos]
    simp [hv]

/-- A dataset carrying the spike series, for the engine-level witness. -/
def recsSpike : List CanonicalRecord :=
  [⟨"P1", "Inc", "Revenue", 100⟩, ⟨"P2", "Inc", "Revenue", 102⟩,
   ⟨"P3", "Inc", "Revenue", 98⟩, ⟨"P4", "Inc", "Revenue", 500⟩]

theorem anomalyEngine_spec_witness :
    anomaliesForSeries "c" "x" [("P1", 7), ("P2", 7), ("P3", 7), ("P4", 7)] = [] ∧
    (anomaliesForSeries "c" "x" ptsSpike).map
      (fun a => (a.period, a.severity)) = [("P4", Severity.medium)] := by
  have h := anomalyEngine_spec
  constructor
  · refine h.1 "c" "x" _ (Or.inr ?_)
    norm_num [varPop, meanOf]
  · exact h.2.2.2.2.1

/-! ### C5: the Comparison Engine -/

/-- C5: given two known period labels (or the two most recent in canonical
order when unspecified) the Comparison Engine emits, for every line_item
present in both periods, `absolute_change = v2 − v1` and
`percent_change = 100·(v2 − v1)/|v1|`, omitted (`none`) when `v1 = 0`;
comparing Q1 revenue=100 against Q2 revenue=150 yields 50 and 50.0. -/
theorem comparisonEngine_spec :
    (∀ records p1 p2, p1 ∈ periodsOf records → p2 ∈ periodsOf records →
      comparisonEngine records (some (p1, p2)) =
        Except.ok ⟨p1, p2, compareItems records p1 p2⟩) ∧
    (∀ records p1 p2 rest, (periodsOf records).reverse = p2 :: p1 :: rest →
      comparisonEngine records none =
        Except.ok ⟨p1, p2, compareItems records p1 p2⟩) ∧
    (∀ records p1 p2 li v1 v2, li ∈ lineItemsOf records →
      getAmount records p1 li = some v1 → getAmount records p2 li = some v2 →
      (⟨li, v1, v2, v2 - v1, comparePct v1 v2⟩ : CompItem) ∈
        compareItems records p1 p2) ∧
    (∀ v1 v2, v1 ≠ 0 → comparePct v1 v2 = some (100 * (v2 - v1) / |v1|)) ∧
    (∀ v2, comparePct 0 v2 = none) ∧
    comparisonEngine
        [⟨"Q1", "Inc", "Revenue", 100⟩, ⟨"Q2", "Inc", "Revenue", 150⟩]
        (some ("Q1", "Q2")) =
      Except.ok ⟨"Q1", "Q2", [⟨"Revenue", 100, 150, 50, some 50⟩]⟩ := by
  refine ⟨?_, ?_, ?_, ?_, ?_, ?_⟩
  · intro records p1 p2 h1 h2
    unfold comparisonEngine
    dsimp only
    rw [if_pos ⟨h1, h2⟩]
  · intro records p1 p2 rest h
    unfold comparisonEngine
    dsimp only
    rw [h]
  · intro records p1 p2 li v1 v2 hmem h1 h2
    unfold compareItems
    refine List.mem_filterMap.mpr ⟨li, hmem, ?_⟩
    rw [h1, h2]
  · intro v1 v2 h
    unfold comparePct
    rw [if_neg h]
  · intro v2
    rfl
  · simp +decide [comparisonEngine, compareItems, lineItemsOf, periodsOf,
      seenFold, getAmount, comparePct, List.find?, List.filterMap_cons]
    norm_num

theorem comparisonEngine_spec_witness :
    comparisonEngine
        [⟨"Q1", "Inc", "Revenue", 100⟩, ⟨"Q2", "Inc", "Revenue", 150⟩]
        (some ("Q1", "Q2")) =
      Except.ok ⟨"Q1", "Q2",
        compareItems
          [⟨"Q1", "Inc", "Revenue", 100⟩, ⟨"Q2", "Inc", "Revenue", 150⟩]
          "Q1" "Q2"⟩ ∧
    (⟨"Revenue", 100, 150, 50, some 50⟩ : CompItem) ∈
      compareItems
        [⟨"Q1", "Inc", "Revenue", 100⟩, ⟨"Q2", "Inc", "Revenue", 150⟩]
        "Q1" "Q2" := by
  have h := comparisonEngine_spec
  constructor
  · exact h.1 [⟨"Q1", "Inc", "Revenue", 100⟩, ⟨"Q2", "Inc", "Revenue", 150⟩]
      "Q1" "Q2" (by decide) (by decide)
  · have h3 := h.2.2.1 [⟨"Q1", "Inc", "Revenue", 100⟩, ⟨"Q2", "Inc", "Revenue", 150⟩]
      "Q1" "Q2" "Revenue" 100 150 (by decide) (by decide) (by decide)
    have e1 : (150 : ℚ) - 100 = 50 := by norm_num
    have e2 : comparePct 100 150 = some 50 := by
      unfold comparePct
      norm_num
    rw [e1, e2] at h3
    exact h3

/-! ### Ratio-engine lemmas, C1 and C2 -/

theorem ratioEntry_key {name : String} {inp : Option (ℚ × ℚ)}
    {e : String × RVal} (h : e ∈ ratioEntry name inp) : e.1 = name := by
  unfold ratioEntry at h
  cases inp with
  | none => simp at h
  | some nd =>
    obtain ⟨n, d⟩ := nd
    rw [List.mem_singleton.mp h]

theorem ratioEntry_num {name : String} {q : ℚ} {inp : Option (ℚ × ℚ)}
    (h : (name, RVal.num q) ∈ ratioEntry name inp) :
    ∃ n d, inp = some (n, d) ∧ d ≠ 0 ∧ q = n / d := by
  unfold ratioEntry at h
  cases inp with
  | none => simp at h
  | some nd =>
    obtain ⟨n, d⟩ := nd
    by_cases hd : d = 0
    · simp [hd] at h
    · simp [hd] at h
      exact ⟨n, d, rfl, hd, h⟩

theorem ratioEntry_zero (name : String) (n : ℚ) :
    ratioEntry name (some (n, 0)) = [(name, RVal.str "insufficient data")] := by
  simp [ratioEntry]

theorem ratioEntry_val (name : String) (n d : ℚ) (hd : d ≠ 0) :
    ratioEntry name (some (n, d)) = [(name, RVal.num (n / d))] := by
  simp [ratioEntry, hd]

theorem pair2_eq_some {a b : Option ℚ} {f : ℚ → ℚ → ℚ × ℚ} {nd : ℚ × ℚ}
    (h : pair2 a b f = some nd) :
    ∃ x y, a = some x ∧ b = some y ∧ f x y = nd := by
  cases a with
  | none => simp [pair2] at h
  | some x =>
    cases b with
    | none => simp [pair2] at h
    | some y => exact ⟨x, y, rfl, rfl, by simpa [pair2] using h⟩

/-- The flat shape of the ratio record at the most recent period `p`. -/
theorem ratiosFor_eq (records : List CanonicalRecord) (p : String)
    (hlast : (periodsOf records).getLast? = some p) :
    ratiosFor records =
      ("period", RVal.str p)
        :: ratioEntry "gross_margin"
            (pair2 (getConcept records "revenue" p) (getConcept records "cogs" p)
              (fun r c => (r - c, r)))
        ++ ratioEntry "net_margin"
            (pair2 (getConcept records "net income" p)
              (getConcept records "revenue" p) (fun n r => (n, r)))
        ++ ratioEntry "return_on_assets"
            (pair2 (getConcept records "net income" p)
              (getConcept records "total assets" p) (fun n a => (n, a)))
        ++ ratioEntry "current_ratio"
            (pair2 (getConcept records "current assets" p)
              (getConcept records "current liabilities" p) (fun a l => (a, l)))
        ++ ratioEntry "debt_to_equity"
            (pair2 (getConcept records "total liabilities" p)
              (getConcept records "total assets" p) (fun l a => (l, a - l))) := by
  unfold ratiosFor
  rw [hlast]

/-- C1 amended: in the single flat ratio record the artifact carries (the
most recent period's), every ratio whose denominator resolves to zero is
marked "insufficient data", and every numeric ratio value arises from a
division with non-zero denominator — no Infinity or NaN can be surfaced. -/
theorem ratio_zero_denominator_insufficient
    (records : List CanonicalRecord) (p : String)
    (hlast : (periodsOf records).getLast? = some p) :
    (("period", RVal.str p) ∈ ratiosFor records) ∧
    (∀ rev cogs, getConcept records "revenue" p = some rev →
      getConcept records "cogs" p = some cogs → rev = 0 →
      ("gross_margin", RVal.str "insufficient data") ∈ ratiosFor records) ∧
    (∀ ni rev, getConcept records "net income" p = some ni →
      getConcept records "revenue" p = some rev → rev = 0 →
      ("net_margin", RVal.str "insufficient data") ∈ ratiosFor records) ∧
    (∀ ni ta, getConcept records "net income" p = some ni →
      getConcept records "total assets" p = some ta → ta = 0 →
      ("return_on_assets", RVal.str "insufficient data") ∈ ratiosFor records) ∧
    (∀ ca cl, getConcept records "current assets" p = some ca →
      getConcept records "current liabilities" p = some cl → cl = 0 →
      ("current_ratio", RVal.str "insufficient data") ∈ ratiosFor records) ∧
    (∀ tl ta, getConcept records "total liabilities" p = some tl →
      getConcept records "total assets" p = some ta → ta - tl = 0 →
      ("debt_to_equity", RVal.str "insufficient data") ∈ ratiosFor records) ∧
    (∀ q, ("gross_margin", RVal.num q) ∈ ratiosFor records →
      ∃ rev cogs, getConcept records "revenue" p = some rev ∧
        getConcept records "cogs" p = some cogs ∧ rev ≠ 0 ∧
        q = (rev - cogs) / rev) ∧
    (∀ q, ("net_margin", RVal.num q) ∈ ratiosFor records →
      ∃ ni rev, getConcept records "net income" p = some ni ∧
        getConcept records "revenue" p = some rev ∧ rev ≠ 0 ∧ q = ni / rev) ∧
    (∀ q, ("return_on_assets", RVal.num q) ∈ ratiosFor records →
      ∃ ni ta, getConcept records "net income" p = some ni ∧
        getConcept records "total assets" p = some ta ∧ ta ≠ 0 ∧ q = ni / ta) ∧
    (∀ q, ("current_ratio", RVal.num q) ∈ ratiosFor records →
      ∃ ca cl, getConcept records "current assets" p = some ca ∧
        getConcept records "current liabilities" p = some cl ∧ cl ≠ 0 ∧
        q = ca / cl) ∧
    (∀ q, ("debt_to_equity", RVal.num q) ∈ ratiosFor records →
      ∃ tl ta, getConcept records "total liabilities" p = some tl ∧
        getConcept records "total assets" p = some ta ∧ ta - tl ≠ 0 ∧
        q = tl / (ta - tl)) := by
  have hr := ratiosFor_eq records p hlast
  refine ⟨by rw [hr]; exact List.mem_cons_self _ _, ?_, ?_, ?_, ?_, ?_, ?_, ?_, ?_, ?_, ?_⟩
  · intro rev cogs h1 h2 hz
    rw [hr, h1, h2]
    subst hz
    simp [pair2, ratioEntry]
  · intro ni rev h1 h2 hz
    rw [hr, h1, h2]
    subst hz
    simp [pair2, ratioEntry]
  · intro ni ta h1 h2 hz
    rw [hr, h1, h2]
    subst hz
    simp [pair2, ratioEntry]
  · intro ca cl h1 h2 hz
    rw [hr, h1, h2]
    subst hz
    simp [pair2, ratioEntry]
  · intro tl ta h1 h2 hz
    rw [hr, h1, h2]
    simp [pair2, ratioEntry, hz]
  · intro q hq
    rw [hr] at hq
    rcases List.mem_cons.mp hq with h | h
    · simp at h
    rcases List.mem_append.mp h with h | h
    rcases List.mem_append.mp h with h | h
    rcases List.mem_append.mp h with h | h
    rcases List.mem_append.mp h with h | h
    · rcases ratioEntry_num h with ⟨n, d, hnd, hd, hqv⟩
      rcases pair2_eq_some hnd with ⟨x, y, hx, hy, hf⟩
      simp only [Prod.mk.injEq] at hf
      obtain ⟨hf1, hf2⟩ := hf
      subst hf1
      subst hf2
      exact ⟨x, y, hx, hy, hd, hqv⟩
    · exact absurd (ratioEntry_key h) (by simp)
    · exact absurd (ratioEntry_key h) (by simp)
    · exact absurd (ratioEntry_key h) (by simp)
    · exact absurd (ratioEntry_key h) (by simp)
  · intro q hq
    rw [hr] at hq
    rcases List.mem_cons.mp hq with h | h
    · simp at h
    rcases List.mem_append.mp h with h | h
    rcases List.mem_append.mp h with h | h
    rcases List.mem_append.mp h with h | h
    rcases List.mem_append.mp h with h | h
    · exact absurd (ratioEntry_key h) (by simp)
    · rcases ratioEntry_num h with ⟨n, d, hnd, hd, hqv⟩
      rcases pair2_eq_some hnd with ⟨x, y, hx, hy, hf⟩
      simp only [Prod.mk.injEq] at hf
      obtain ⟨hf1, hf2⟩ := hf
      subst hf1
      subst hf2
      exact ⟨x, y, hx, hy, hd, hqv⟩
    · exact absurd (ratioEntry_key h) (by simp)
    · exact absurd (ratioEntry_key h) (by simp)
    · exact absurd (ratioEntry_key h) (by simp)
  · intro q hq
    rw [hr] at hq
    rcases List.mem_cons.mp hq with h | h
    · simp at h
    rcases List.mem_append.mp h with h | h
    rcases List.mem_append.mp h with h | h
    rcases List.mem_append.mp h with h | h
    rcases List.mem_append.mp h with h | h
    · exact absurd (ratioEntry_key h) (by simp)
    · exact absurd (ratioEntry_key h) (by simp)
    · rcases ratioEntry_num h with ⟨n, d, hnd, hd, hqv⟩
      rcases pair2_eq_some hnd with ⟨x, y, hx, hy, hf⟩
      simp only [Prod.mk.injEq] at hf
      obtain ⟨hf1, hf2⟩ := hf
      subst hf1
      subst hf2
      exact ⟨x, y, hx, hy, hd, hqv⟩
    · exact absurd (ratioEntry_key h) (by simp)
    · exact absurd (ratioEntry_key h) (by simp)
  · intro q hq
    rw [hr] at hq
    rcases List.mem_cons.mp hq with h | h
    · simp at h
    rcases List.mem_append.mp h with h | h
    rcases List.mem_append.mp h with h | h
    rcases List.mem_append.mp h with h | h
    rcases List.mem_append.mp h with h | h
    · exact absurd (ratioEntry_key h) (by simp)
    · exact absurd (ratioEntry_key h) (by simp)
    · exact absurd (ratioEntry_key h) (by simp)
    · rcases ratioEntry_num h with ⟨n, d, hnd, hd, hqv⟩
      rcases pair2_eq_some hnd with ⟨x, y, hx, hy, hf⟩
      simp only [Prod.mk.injEq] at hf
      obtain ⟨hf1, hf2⟩ := hf
      subst hf1
      subst hf2
      exact ⟨x, y, hx, hy, hd, hqv⟩
    · exact absurd (ratioEntry_key h) (by simp)
  · intro q hq
    rw [hr] at hq
    rcases List.mem_cons.mp hq with h | h
    · simp at h
    rcases List.mem_append.mp h with h | h
    rcases List.mem_append.mp h with h | h
    rcases List.mem_append.mp h with h | h
    rcases List.mem_append.mp h with h | h
    · exact absurd (ratioEntry_key h) (by simp)
    · exact absurd (ratioEntry_key h) (by simp)
    · exact absurd (ratioEntry_key h) (by simp)
    · exact absurd (ratioEntry_key h) (by simp)
    · rcases ratioEntry_num h with ⟨n, d, hnd, hd, hqv⟩
      rcases pair2_eq_some hnd with ⟨x, y, hx, hy, hf⟩
      simp only [Prod.mk.injEq] at hf
      obtain ⟨hf1, hf2⟩ := hf
      subst hf1
      subst hf2
      exact ⟨x, y, hx, hy, hd, hqv⟩

/-- The claim's reading of a per-period insufficiency marking: the
artifact records the period key and the "insufficient data" marker for
that ratio. -/
def marksInsufficientForPeriod (out : List (String × RVal))
    (p name : String) : Prop :=
  ("period", RVal.str p) ∈ out ∧ (name, RVal.str "insufficient data") ∈ out

/-- The claim's reading of a per-period ratio value: the artifact records
the period key together with that ratio's numeric value. -/
def hasRatioForPeriod (out : List (String × RVal)) (p name : String)
    (q : ℚ) : Prop :=
  ("period", RVal.str p) ∈ out ∧ (name, RVal.num q) ∈ out

/-- Two periods; revenue is 0 in Q1 but not in the most recent period. -/
def recsZeroRev : List CanonicalRecord :=
  [⟨"Q1", "Inc", "Revenue", 0⟩, ⟨"Q1", "Inc", "COGS", 10⟩,
   ⟨"Q2", "Inc", "Revenue", 100⟩, ⟨"Q2", "Inc", "COGS", 40⟩]

/-- No entry of the flat ratio record carries the key `"Q1"`-style period
marking for a non-reported period. -/
theorem not_period_entry_of_ne (records : List CanonicalRecord)
    (p p2 : String) (hlast : (periodsOf records).getLast? = some p2)
    (hne : p ≠ p2) : ("period", RVal.str p) ∉ ratiosFor records := by
  intro hp
  rw [ratiosFor_eq records p2 hlast] at hp
  rcases List.mem_cons.mp hp with h | h
  · exact hne (by simpa using congrArg (fun e => e.2) h)
  rcases List.mem_append.mp h with h | h
  rcases List.mem_append.mp h with h | h
  rcases List.mem_append.mp h with h | h
  rcases List.mem_append.mp h with h | h
  all_goals exact absurd (ratioEntry_key h) (by simp)

/-- C1 counterexample: with revenue 0 in period Q1 of a two-period
dataset, the artifact does not mark gross margin as insufficient for Q1 —
the flat ratio record covers only the most recent period Q2. -/
theorem ratio_marking_counterexample :
    getConcept recsZeroRev "revenue" "Q1" = some 0 ∧
    getConcept recsZeroRev "cogs" "Q1" = some 10 ∧
    "Q1" ∈ periodsOf recsZeroRev ∧
    ¬ marksInsufficientForPeriod (ratiosFor recsZeroRev) "Q1" "gross_margin" := by
  refine ⟨by decide, by decide, by decide, ?_⟩
  intro hm
  exact not_period_entry_of_ne recsZeroRev "Q1" "Q2" (by decide) (by decide) hm.1

/-- One period only, with zero revenue in it. -/
def recsZeroLast : List CanonicalRecord :=
  [⟨"Q1", "Inc", "Revenue", 0⟩, ⟨"Q1", "Inc", "COGS", 10⟩]

theorem ratio_zero_denominator_insufficient_witness :
    ("gross_margin", RVal.str "insufficient data") ∈ ratiosFor recsZeroLast ∧
    ("period", RVal.str "Q1") ∈ ratiosFor recsZeroLast := by
  have h := ratio_zero_denominator_insufficient recsZeroLast "Q1" (by decide)
  exact ⟨h.2.1 0 10 (by decide) (by decide) rfl, h.1⟩

/-- Two periods whose gross-margin inputs resolve in both. -/
def recsTwoPeriods : List CanonicalRecord :=
  [⟨"Q1", "Inc", "Revenue", 100⟩, ⟨"Q1", "Inc", "COGS", 50⟩,
   ⟨"Q2", "Inc", "Revenue", 200⟩, ⟨"Q2", "Inc", "COGS", 80⟩]

/-- C2 counterexample: although all gross-margin inputs resolve for
period Q1 (revenue 100 ≠ 0, cogs 50), the artifact's ratios hold no value
keyed to Q1: the record is flat and names only the most recent period Q2. -/
theorem ratios_keyed_by_period_counterexample :
    getConcept recsTwoPeriods "revenue" "Q1" = some 100 ∧
    getConcept recsTwoPeriods "cogs" "Q1" = some 50 ∧
    (100 : ℚ) ≠ 0 ∧
    "Q1" ∈ periodsOf recsTwoPeriods ∧
    (∀ q, ¬ hasRatioForPeriod (ratiosFor recsTwoPeriods) "Q1" "gross_margin" q) ∧
    ("period", RVal.str "Q2") ∈ ratiosFor recsTwoPeriods := by
  refine ⟨by decide, by decide, by norm_num, by decide, ?_, ?_⟩
  · intro q hq
    exact not_period_entry_of_ne recsTwoPeriods "Q1" "Q2" (by decide)
      (by decide) hq.1
  · rw [ratiosFor_eq recsTwoPeriods "Q2" (by decide)]
    exact List.mem_cons_self _ _

/-- C2 amended: the Ratio Engine's artifact is a single flat record for
the most recent period — it holds a "period" entry naming that period,
every key is "period" or a ratio name (never a period key per ratio), and
for each formula whose inputs resolve at that period with a non-zero
denominator the record contains that ratio's value. -/
theorem ratios_single_flat_record (records : List CanonicalRecord)
    (p : String) (hlast : (periodsOf records).getLast? = some p) :
    ("period", RVal.str p) ∈ ratiosFor records ∧
    (∀ rev cogs, getConcept records "revenue" p = some rev →
      getConcept records "cogs" p = some cogs → rev ≠ 0 →
      ("gross_margin", RVal.num ((rev - cogs) / rev)) ∈ ratiosFor records) ∧
    (∀ ni rev, getConcept records "net income" p = some ni →
      getConcept records "revenue" p = some rev → rev ≠ 0 →
      ("net_margin", RVal.num (ni / rev)) ∈ ratiosFor records) ∧
    (∀ ni ta, getConcept records "net income" p = some ni →
      getConcept records "total assets" p = some ta → ta ≠ 0 →
      ("return_on_assets", RVal.num (ni / ta)) ∈ ratiosFor records) ∧
    (∀ ca cl, getConcept records "current assets" p = some ca →
      getConcept records "current liabilities" p = some cl → cl ≠ 0 →
      ("current_ratio", RVal.num (ca / cl)) ∈ ratiosFor records) ∧
    (∀ tl ta, getConcept records "total liabilities" p = some tl →
      getConcept records "total assets" p = some ta → ta - tl ≠ 0 →
      ("debt_to_equity", RVal.num (tl / (ta - tl))) ∈ ratiosFor records) ∧
    (∀ e ∈ ratiosFor records,
      e.1 = "period" ∨ e.1 = "gross_margin" ∨ e.1 = "net_margin" ∨
      e.1 = "return_on_assets" ∨ e.1 = "current_ratio" ∨
      e.1 = "debt_to_equity") := by
  have hr := ratiosFor_eq records p hlast
  refine ⟨by rw [hr]; exact List.mem_cons_self _ _, ?_, ?_, ?_, ?_, ?_, ?_⟩
  · intro rev cogs h1 h2 hnz
    rw [hr, h1, h2]
    simp [pair2, ratioEntry, hnz]
  · intro ni rev h1 h2 hnz
    rw [hr, h1, h2]
    simp [pair2, ratioEntry, hnz]
  · intro ni ta h1 h2 hnz
    rw [hr, h1, h2]
    simp [pair2, ratioEntry, hnz]
  · intro ca cl h1 h2 hnz
    rw [hr, h1, h2]
    simp [pair2, ratioEntry, hnz]
  · intro tl ta h1 h2 hnz
    rw [hr, h1, h2]
    simp [pair2, ratioEntry, hnz]
  · intro e he
    rw [hr] at he
    rcases List.mem_cons.mp he with h | h
    · left
      rw [h]
    rcases List.mem_append.mp h with h | h
    rcases List.mem_append.mp h with h | h
    rcases List.mem_append.mp h with h | h
    rcases List.mem_append.mp h with h | h
    · exact Or.inr (Or.inl (ratioEntry_key h))
    · exact Or.inr (Or.inr (Or.inl (ratioEntry_key h)))
    · exact Or.inr (Or.inr (Or.inr (Or.inl (ratioEntry_key h))))
    · exact Or.inr (Or.inr (Or.inr (Or.inr (Or.inl (ratioEntry_key h)))))
    · exact Or.inr (Or.inr (Or.inr (Or.inr (Or.inr (ratioEntry_key h)))))

theorem ratios_single_flat_record_witness :
    ("period", RVal.str "Q2") ∈ ratiosFor recsTwoPeriods ∧
    ("gross_margin", RVal.num (((200 : ℚ) - 80) / 200)) ∈
      ratiosFor recsTwoPeriods := by
  have h := ratios_single_flat_record recsTwoPeriods "Q2" (by decide)
  exact ⟨h.1, h.2.1 200 80 (by decide) (by decide) (by norm_num)⟩

/-! ### C8: the Analysis Orchestrator -/

/-- C8: no engine's failure aborts another.  The summary, ratios, trends
and anomalies fields do not depend on the comparison request at all; every
engine's output lands in its own field; an UnknownPeriod comparison
failure is captured inside the `period_comparison` field while the other
fields are the usual engine outputs; and only detection/normalization
failures abort the pipeline before any engine runs. -/
theorem orchestrator_isolation :
    (∀ records req req2,
      (analyze records req).summary = (analyze records req2).summary ∧
      (analyze records req).ratios = (analyze records req2).ratios ∧
      (analyze records req).trends = (analyze records req2).trends ∧
      (analyze records req).anomalies = (analyze records req2).anomalies) ∧
    (∀ records req,
      (analyze records req).summary = summaryOf records ∧
      (analyze records req).ratios = ratiosFor records ∧
      (analyze records req).trends = trendEngine records ∧
      (analyze records req).anomalies = anomalyEngine records ∧
      (analyze records req).period_comparison = comparisonEngine records req) ∧
    (∀ records p1 p2, ¬(p1 ∈ periodsOf records ∧ p2 ∈ periodsOf records) →
      (analyze records (some (p1, p2))).period_comparison =
        Except.error "UnknownPeriod" ∧
      (analyze records (some (p1, p2))).ratios = ratiosFor records ∧
      (analyze records (some (p1, p2))).trends = trendEngine records ∧
      (analyze records (some (p1, p2))).anomalies = anomalyEngine records) ∧
    (∀ t req e, detectLayout t = Except.error e →
      runPipeline t req = Except.error e) ∧
    (∀ t req layout records warns,
      detect_and_normalize t = Except.ok (layout, records, warns) →
      runPipeline t req = Except.ok (analyze records req)) := by
  refine ⟨fun records req req2 => ⟨rfl, rfl, rfl, rfl⟩,
    fun records req => ⟨rfl, rfl, rfl, rfl, rfl⟩, ?_, ?_, ?_⟩
  · intro records p1 p2 h
    refine ⟨?_, rfl, rfl, rfl⟩
    show comparisonEngine records (some (p1, p2)) = Except.error "UnknownPeriod"
    unfold comparisonEngine
    dsimp only
    rw [if_neg h]
  · intro t req e h
    unfold runPipeline detect_and_normalize
    rw [h]
  · intro t req layout records warns h
    unfold runPipeline
    rw [h]

theorem orchestrator_isolation_witness :
    (analyze recsTwoPeriods (some ("QX", "Q2"))).period_comparison =
      Except.error "UnknownPeriod" ∧
    (analyze recsTwoPeriods (some ("QX", "Q2"))).trends =
      trendEngine recsTwoPeriods ∧
    (analyze recsTwoPeriods (some ("QX", "Q2"))).anomalies =
      anomalyEngine recsTwoPeriods ∧
    (analyze recsTwoPeriods (some ("QX", "Q2"))).ratios =
      ratiosFor recsTwoPeriods := by
  have h := orchestrator_isolation.2.2.1 recsTwoPeriods "QX" "Q2" (by decide)
  exact ⟨h.1, h.2.2.1, h.2.2.2, h.2.1⟩

/-! ### C10: the FinancialCharts trend chart -/

/-- C10: `FinancialCharts` builds one chart point per period; each point
carries, for every top trend, the entry `values_by_period[p] || 0` — the
looked-up value when present and non-zero, and an explicit 0 when the
value is missing (or itself 0, any falsy value being replaced). -/
theorem trendLineData_spec :
    (∀ periods trends p, p ∈ periods →
      ∃ pt ∈ trendLineData periods trends, pt.1 = p ∧
        ∀ t ∈ topTrends trends,
          (t.line_item, (recLookup t.values_by_period p).getD 0) ∈ pt.2) ∧
    (∀ x, jsOrZero x = x.getD 0) ∧
    (∀ periods trends, (trendLineData periods trends).length = periods.length) ∧
    (∀ trends, topTrends trends = trends.take 5) := by
  refine ⟨?_, ?_, fun periods trends => List.length_map _ _, fun trends => rfl⟩
  · intro periods trends p hp
    refine ⟨trendPoint (topTrends trends) p, List.mem_map_of_mem _ hp, rfl, ?_⟩
    intro t ht
    unfold trendPoint
    have hz : jsOrZero (recLookup t.values_by_period p) =
        (recLookup t.values_by_period p).getD 0 := by
      cases h : recLookup t.values_by_period p with
      | none => rfl
      | some v =>
        by_cases hv : v = 0
        · simp [jsOrZero, hv]
        · simp [jsOrZero, hv]
    rw [← hz]
    exact List.mem_map_of_mem _ ht
  · intro x
    cases x with
    | none => rfl
    | some v =>
      by_cases hv : v = 0
      · simp [jsOrZero, hv]
      · simp [jsOrZero, hv]

/-- A trend whose series lacks a value for period "P2". -/
def trendW : Trend := ⟨"Revenue", "Inc", [("P1", 5)], [], 0, Direction.stable⟩

theorem trendLineData_spec_witness :
    ∃ pt ∈ trendLineData ["P1", "P2"] [trendW], pt.1 = "P2" ∧
      ("Revenue", (0 : ℚ)) ∈ pt.2 := by
  obtain ⟨pt, hmem, hp, hall⟩ :=
    trendLineData_spec.1 ["P1", "P2"] [trendW] "P2" (by decide)
  refine ⟨pt, hmem, hp, ?_⟩
  have h := hall trendW (by decide)
  have h0 : (recLookup trendW.values_by_period "P2").getD 0 = 0 := by decide
  rwa [h0] at h

end AiFinance
